import Mathlib

/-!
# Verification of the hiring-signals pipeline

Shallow embedding of the four pipeline stages of the
`buildcpg-lab3-hiring-signals` repository:

* `cleaned_jobs_asset`  (src/dagster_lab3/assets/cleaned_jobs.py) —
  normalisation and deduplication of raw job postings;
* `company_stats_asset` (src/dagster_lab3/assets/company_stats.py) —
  config-driven tech detection and weekly aggregation (a DuckDB SQL query);
* `lead_scores_asset`   (src/dagster_lab3/assets/lead_scores.py) —
  velocity / tech-match / volume sub-scores and the composite lead score.

Modelling conventions:

* table rows are Lean structures, tables are lists of rows;
* SQL `LIKE '%kw%'` with a wildcard-free needle is a contiguous-substring
  test, embedded as `strOccurs`;
* dates are integers counting days from a Monday epoch, so DuckDB
  `date_trunc('week', d)` becomes rounding down to a multiple of 7;
* SQL FLOAT arithmetic is embedded as exact rational arithmetic (`Rat`)
  and `ROUND(x, 2)` as `round2` (round half up at the second decimal);
* each Dagster asset becomes a pure function from its input tables (and
  the previous contents of its output table) to its `Output` value,
  diagnostic metadata and the new contents of its output table; an early
  `return` before the `DELETE FROM` statement leaves the output table
  unchanged.
-/

/-- `leadsWith n h` is true when the character list `n` is an initial
segment of `h`.  Building block of the SQL `LIKE '%kw%'` embedding. -/
def leadsWith : List Char → List Char → Bool
  | [], _ => true
  | _ :: _, [] => false
  | a :: as, b :: bs => a == b && leadsWith as bs

/-- `occursIn n h` is true when the character list `n` occurs contiguously
inside `h`. -/
def occursIn (n : List Char) : List Char → Bool
  | [] => n.isEmpty
  | c :: t => leadsWith n (c :: t) || occursIn n t

/-- `strOccurs n h`: the string `n` occurs as a contiguous substring of `h`.
Embeds `h LIKE '%' || n || '%'` for a needle without `%`/`_` wildcards. -/
def strOccurs (n h : String) : Bool :=
  occursIn n.data h.data

/-- SQL `LOWER` / Polars `.str.to_lowercase()`, done characterwise (the
list-based equivalent of `String.toLower`). -/
def lowerStr (s : String) : String :=
  ⟨s.data.map Char.toLower⟩

/-- Strip whitespace from both ends of a character list. -/
def trimList (l : List Char) : List Char :=
  ((l.dropWhile Char.isWhitespace).reverse.dropWhile Char.isWhitespace).reverse

/-- Polars `.str.strip_chars()` (the list-based equivalent of
`String.trim`): whitespace removed from both ends. -/
def trimStr (s : String) : String :=
  ⟨trimList s.data⟩

/-- `String.intercalate sep`, written by direct recursion. -/
def joinStrs (sep : String) : List String → String
  | [] => ""
  | [x] => x
  | x :: y :: xs => x ++ sep ++ joinStrs sep (y :: xs)

/-- Minimum of a list of integers (`none` on the empty list), mirroring a
SQL `MIN` aggregate. -/
def minList : List Int → Option Int
  | [] => none
  | x :: xs => some (xs.foldl min x)

/-- Maximum of a list of integers (`none` on the empty list), mirroring a
SQL `MAX` aggregate. -/
def maxList : List Int → Option Int
  | [] => none
  | x :: xs => some (xs.foldl max x)

/-- DuckDB `ROUND(x, 2)`: round to two decimal places.  Mathlib's `round`
rounds half up; DuckDB rounds half away from zero — the two agree except
on exact `.005` ties of negative values, which no claim depends on. -/
def round2 (q : Rat) : Rat :=
  (round (q * 100) : Int) / 100

/-! ## Seniority classification (company_stats.py)

The aggregation query classifies seniority twice: once in the
`job_tech_pairs` CTE (lines 90–98) and once, with fewer keywords, in the
`companies_without_techs` CTE (lines 184–215). -/

/-- Seniority rule of the main detection path (company_stats.py lines
90–98): `senior`/`sr.` → Senior, else `junior`/`jr.` → Junior, else
`lead`/`principal` → Lead, else Mid-Level, on the lowercased title. -/
def seniorityMain (title : String) : String :=
  let t := lowerStr title
  if strOccurs "senior" t || strOccurs "sr." t then "Senior"
  else if strOccurs "junior" t || strOccurs "jr." t then "Junior"
  else if strOccurs "lead" t || strOccurs "principal" t then "Lead"
  else "Mid-Level"

/-- Seniority rule of the no-techs-matched fallback path
(company_stats.py lines 184–215): only `senior`, `junior`, `lead` are
tested; `sr.`, `jr.` and `principal` are absent. -/
def seniorityFallback (title : String) : String :=
  let t := lowerStr title
  if strOccurs "senior" t then "Senior"
  else if strOccurs "junior" t then "Junior"
  else if strOccurs "lead" t then "Lead"
  else "Mid-Level"

/-! ## Data model -/

/-- One scrape observation (`raw_jobs` table row). -/
structure RawJob where
  job_id : Nat
  company : String
  title : String
  description : Option String
  location : Option String
  posting_date : Option Int
  url : String
  source : String
  first_scraped_at : Int
  last_scraped_at : Int
deriving Repr, DecidableEq

/-- One canonical, deduplicated job (`cleaned_jobs` table row). -/
structure CleanedJob where
  job_id : Nat
  company : String
  company_normalized : String
  title : String
  title_normalized : String
  description : Option String
  location : Option String
  posting_date : Option Int
  url : String
  source : String
  first_seen : Int
  last_seen : Int
deriving Repr, DecidableEq

/-- One `tech_config` table row. -/
structure TechRow where
  tech_name : String
  keywords : List String
  category : String
  is_target : Bool
  score_weight : Rat
deriving Repr, DecidableEq

/-- One `company_stats` table row (the five columns the asset stores). -/
structure CSRow where
  company_normalized : String
  company : String
  week_start : Int
  jobs_posted : Nat
  tech_stack : String
deriving Repr, DecidableEq

/-- One `lead_scores` table row. -/
structure ScoreRow where
  company_normalized : String
  company : String
  week_start : Int
  jobs_this_week : Nat
  jobs_last_week : Nat
  velocity_score : Rat
  tech_match_score : Rat
  volume_score : Rat
  composite_score : Rat
  score_metadata : String
deriving Repr, DecidableEq

/-! ## Normalizer (cleaned_jobs.py) -/

/-- Polars `.str.to_lowercase().str.strip_chars()` (cleaned_jobs.py lines
44–50). -/
def normStr (s : String) : String :=
  trimStr (lowerStr s)

/-- The dedup key (cleaned_jobs.py lines 52–59): `'|'`-separated
concatenation of normalised company, normalised title and location with
null replaced by the empty string. -/
def dedupKey (r : RawJob) : String :=
  normStr r.company ++ "|" ++ normStr r.title ++ "|" ++ r.location.getD ""

/-- The same key recomputed from a `CleanedJob` row's stored columns. -/
def cleanedKey (c : CleanedJob) : String :=
  c.company_normalized ++ "|" ++ c.title_normalized ++ "|" ++ c.location.getD ""

/-- Ascending order on `first_scraped_at`, the sort key of
`df.sort("first_scraped_at")` (cleaned_jobs.py line 64). -/
def scrapedLE (a b : RawJob) : Prop :=
  a.first_scraped_at ≤ b.first_scraped_at

instance : DecidableRel scrapedLE :=
  fun a b => inferInstanceAs (Decidable (a.first_scraped_at ≤ b.first_scraped_at))

instance : IsTotal RawJob scrapedLE :=
  ⟨fun a b => le_total a.first_scraped_at b.first_scraped_at⟩

instance : IsTrans RawJob scrapedLE :=
  ⟨fun _ _ _ hab hbc => le_trans hab hbc⟩

/-- Polars `group_by("dedup_key").agg(...)` applied to one group, already
in ascending `first_scraped_at` order (cleaned_jobs.py lines 62–79): the
group head supplies every `.first()` column, `first_seen`/`last_seen` are
the group min of `first_scraped_at` / max of `last_scraped_at`. -/
def aggGroup : List RawJob → Option CleanedJob
  | [] => none
  | r :: rest =>
    some
      { job_id := r.job_id
        company := r.company
        company_normalized := normStr r.company
        title := r.title
        title_normalized := normStr r.title
        description := r.description
        location := r.location
        posting_date := r.posting_date
        url := r.url
        source := r.source
        first_seen := (rest.map (·.first_scraped_at)).foldl min r.first_scraped_at
        last_seen := (rest.map (·.last_scraped_at)).foldl max r.last_scraped_at }

/-- The Normalizer (cleaned_jobs.py lines 35–127): sort the raw rows by
`first_scraped_at`, group by `dedup_key`, aggregate each group.  The
resulting rows replace the `cleaned_jobs` table. -/
def cleaned_jobs_asset (raw : List RawJob) : List CleanedJob :=
  let sorted := List.insertionSort scrapedLE raw
  ((sorted.map dedupKey).dedup).filterMap
    (fun k => aggGroup (sorted.filter (fun r => dedupKey r == k)))

/-! ## Tech Detector & Aggregator (company_stats.py) -/

/-- DuckDB `date_trunc('week', d)` on a day count from a Monday epoch:
round down to the start of the ISO week. -/
def weekStart (d : Int) : Int :=
  7 * (d / 7) - (if d % 7 < 0 then 7 else 0)

/-- A row of the `weekly_jobs` CTE (company_stats.py lines 64–74). -/
structure WJob where
  company_normalized : String
  company : String
  week_start : Int
  title : String
  description : Option String
  location : Option String
deriving Repr, DecidableEq

/-- The `weekly_jobs` CTE: cleaned jobs with a non-null `posting_date`,
bucketed into their week. -/
def weeklyJobs (cleaned : List CleanedJob) : List WJob :=
  cleaned.filterMap (fun j =>
    j.posting_date.map (fun d =>
      { company_normalized := j.company_normalized
        company := j.company
        week_start := weekStart d
        title := j.title
        description := j.description
        location := j.location }))

/-- One keyword test of the `tech_matches` CTE (company_stats.py lines
116–122): the keyword occurs in the lowercased title or the lowercased
null-coalesced description. -/
def keywordHit (kw : String) (j : WJob) : Bool :=
  strOccurs kw (lowerStr j.title) || strOccurs kw (lowerStr (j.description.getD ""))

/-- `bool_or` over a tech's keyword list: the tech is detected for the job
when ANY keyword matches (empty keyword list detects nothing, matching
SQL `bool_or` over zero rows yielding NULL). -/
def hasTech (t : TechRow) (j : WJob) : Bool :=
  t.keywords.any (fun kw => keywordHit kw j)

/-- A row of the `detected_techs` CTE (company_stats.py lines 129–140). -/
structure DRow where
  company_normalized : String
  company : String
  week_start : Int
  title : String
  location : Option String
  seniority : String
  tech_name : String
deriving Repr, DecidableEq

/-- The `detected_techs` CTE: the cross join of weekly jobs with
`tech_config`, with the main-path seniority attached, restricted to pairs
where the tech is detected. -/
def detectedTechs (cfg : List TechRow) (W : List WJob) : List DRow :=
  W.flatMap (fun j =>
    cfg.filterMap (fun t =>
      if hasTech t j then
        some
          { company_normalized := j.company_normalized
            company := j.company
            week_start := j.week_start
            title := j.title
            location := j.location
            seniority := seniorityMain j.title
            tech_name := t.tech_name }
      else none))

/-- An output row of the aggregation query, before the asset projects it
onto the five stored columns (company_stats.py lines 144–232). -/
structure AggRow where
  company_normalized : String
  company : String
  week_start : Int
  jobs_posted : Nat
  tech_array : List String
  locations : List String
  senior_count : Nat
  junior_count : Nat
  lead_count : Nat
  mid_count : Nat
deriving Repr, DecidableEq

/-- `COUNT(DISTINCT title)`. -/
def distinctCount (xs : List String) : Nat :=
  xs.dedup.length

/-- `LIST(DISTINCT x ORDER BY x)`: distinct values in ascending order. -/
def sortStrs (xs : List String) : List String :=
  List.insertionSort (· ≤ ·) xs.dedup

/-- The `aggregated_with_techs` CTE (company_stats.py lines 144–168):
group the detected (job, tech) rows by
`(company_normalized, company, week_start)`. -/
def aggregatedWithTechs (D : List DRow) : List AggRow :=
  ((D.map (fun r => (r.company_normalized, r.company, r.week_start))).dedup).map
    (fun k =>
      let g := D.filter (fun r =>
        (r.company_normalized, r.company, r.week_start) == k)
      { company_normalized := k.1
        company := k.2.1
        week_start := k.2.2
        jobs_posted := distinctCount (g.map (·.title))
        tech_array := sortStrs (g.map (·.tech_name))
        locations := sortStrs (g.filterMap (·.location))
        senior_count :=
          distinctCount ((g.filter (fun r => r.seniority == "Senior")).map (·.title))
        junior_count :=
          distinctCount ((g.filter (fun r => r.seniority == "Junior")).map (·.title))
        lead_count :=
          distinctCount ((g.filter (fun r => r.seniority == "Lead")).map (·.title))
        mid_count :=
          distinctCount ((g.filter (fun r => r.seniority == "Mid-Level")).map (·.title)) })

/-- The `companies_without_techs` CTE (company_stats.py lines 173–222):
weekly jobs whose `(company_normalized, week_start)` pair has no
`detected_techs` row at all (the LEFT JOIN / IS NULL anti-join), grouped
by `(company_normalized, company, week_start)` with an empty tech array
and the fallback seniority rule. -/
def companiesWithoutTechs (D : List DRow) (W : List WJob) : List AggRow :=
  let W0 := W.filter (fun j =>
    !(D.any (fun d =>
      d.company_normalized == j.company_normalized && d.week_start == j.week_start)))
  ((W0.map (fun j => (j.company_normalized, j.company, j.week_start))).dedup).map
    (fun k =>
      let g := W0.filter (fun j =>
        (j.company_normalized, j.company, j.week_start) == k)
      { company_normalized := k.1
        company := k.2.1
        week_start := k.2.2
        jobs_posted := distinctCount (g.map (·.title))
        tech_array := []
        locations := sortStrs (g.filterMap (·.location))
        senior_count :=
          distinctCount ((g.filter (fun j => seniorityFallback j.title == "Senior")).map (·.title))
        junior_count :=
          distinctCount ((g.filter (fun j => seniorityFallback j.title == "Junior")).map (·.title))
        lead_count :=
          distinctCount ((g.filter (fun j => seniorityFallback j.title == "Lead")).map (·.title))
        mid_count :=
          distinctCount ((g.filter (fun j => seniorityFallback j.title == "Mid-Level")).map (·.title)) })

/-- The whole aggregation query (company_stats.py lines 61–233): the union
of the matched and the no-match groups.  The final `ORDER BY` only affects
presentation order and is not modelled. -/
def companyStatsQuery (cfg : List TechRow) (cleaned : List CleanedJob) : List AggRow :=
  let W := weeklyJobs cleaned
  let D := detectedTechs cfg W
  aggregatedWithTechs D ++ companiesWithoutTechs D W

/-- `tech_array` serialised with `.list.join(",")` (company_stats.py lines
241–243). -/
def techStackStr (a : AggRow) : String :=
  joinStrs "," a.tech_array

/-- The Tech Detector & Aggregator asset (company_stats.py):
if `tech_config` is empty it returns value 0 with a diagnostic BEFORE the
`DELETE FROM company_stats`, leaving the previous table contents in
place; otherwise it runs the query and replaces the table with the
projection onto the five stored columns.  Result: (returned value,
diagnostic, new `company_stats` table). -/
def company_stats_asset (cfg : List TechRow) (cleaned : List CleanedJob)
    (prev : List CSRow) : Nat × Option String × List CSRow :=
  if cfg.length = 0 then
    (0, some "tech_config table is empty", prev)
  else
    let rows := (companyStatsQuery cfg cleaned).map (fun a =>
      { company_normalized := a.company_normalized
        company := a.company
        week_start := a.week_start
        jobs_posted := a.jobs_posted
        tech_stack := techStackStr a })
    (rows.length, none, rows)

/-! ## Lead Scorer (lead_scores.py) -/

/-- `tech_config` rows with `is_target = true` (the `target_techs` CTE,
lead_scores.py lines 70–76, also the precondition check at lines 49–59). -/
def targetsOf (cfg : List TechRow) : List TechRow :=
  cfg.filter (·.is_target)

/-- The `max_tech_score` CTE (lead_scores.py lines 80–83): sum of the
target score weights. -/
def totalWeight (cfg : List TechRow) : Rat :=
  ((targetsOf cfg).map (·.score_weight)).sum

/-- `matched_tech_weight` (lead_scores.py lines 120–127): sum of
`score_weight` over the target techs whose `tech_name` occurs as a
substring of the serialized `tech_stack` (`LIKE '%' || tech_name || '%'`). -/
def matchedWeight (cfg : List TechRow) (stack : String) : Rat :=
  (((targetsOf cfg).filter (fun t => strOccurs t.tech_name stack)).map
    (·.score_weight)).sum

/-- `tech_match_score` before rounding (lead_scores.py lines 159–162):
0 when the total target weight is 0, else matched / total * 100. -/
def techMatchRaw (cfg : List TechRow) (stack : String) : Rat :=
  if totalWeight cfg = 0 then 0
  else matchedWeight cfg stack / totalWeight cfg * 100

/-- Fold step selecting the row with the larger `week_start`. -/
def pickLater (acc : Option CSRow) (s : CSRow) : Option CSRow :=
  match acc with
  | none => some s
  | some m => if m.week_start < s.week_start then some s else some m

/-- The `LAG(jobs_posted, 1) OVER (PARTITION BY company_normalized ORDER
BY week_start)` window (lead_scores.py lines 96–99): the `jobs_posted` of
the row with the greatest `week_start` strictly before this row's, within
the same company; `none` when the company has no earlier row. -/
def lagJobs (stats : List CSRow) (r : CSRow) : Option Nat :=
  let prior := stats.filter (fun s =>
    s.company_normalized == r.company_normalized && s.week_start < r.week_start)
  (prior.foldl pickLater none).map (·.jobs_posted)

/-- `velocity_score` before rounding (lead_scores.py lines 148–154):
100 when `jobs_last_week` is NULL or 0, else
`LEAST((jobs_posted - jobs_last_week) / jobs_last_week * 100, 100)`. -/
def velocityRaw (cur : Nat) (lag : Option Nat) : Rat :=
  match lag with
  | none => 100
  | some 0 => 100
  | some n => min (((cur : Rat) - (n : Rat)) / (n : Rat) * 100) 100

/-- `MAX(jobs_posted) OVER ()` (lead_scores.py line 167): the window runs
over every row of `company_tech_scores`, i.e. over ALL weeks of
`company_stats`, not only the scored week. -/
def maxJobs (stats : List CSRow) : Nat :=
  (stats.map (·.jobs_posted)).foldl max 0

/-- One output row of the scoring query for the `company_stats` row `r`
(lead_scores.py lines 137–197).  The composite is computed from the
UNROUNDED sub-scores; the three sub-scores are stored rounded. -/
def scoredRow (cfg : List TechRow) (stats : List CSRow) (r : CSRow) : ScoreRow :=
  let lag := lagJobs stats r
  let v := velocityRaw r.jobs_posted lag
  let t := techMatchRaw cfg r.tech_stack
  let vol := (r.jobs_posted : Rat) / (maxJobs stats : Rat) * 100
  { company_normalized := r.company_normalized
    company := r.company
    week_start := r.week_start
    jobs_this_week := r.jobs_posted
    jobs_last_week := lag.getD 0
    velocity_score := round2 v
    tech_match_score := round2 t
    volume_score := round2 vol
    composite_score := round2 (v * 0.4 + t * 0.35 + vol * 0.25)
    score_metadata := r.tech_stack }

/-- `SELECT MAX(week_start) FROM scored` (lead_scores.py line 196). -/
def latestWeek (stats : List CSRow) : Option Int :=
  maxList (stats.map (·.week_start))

/-- The scoring query result (lead_scores.py lines 67–198): every
`company_stats` row of the latest week, scored.  The final `ORDER BY
composite_score DESC` only affects presentation order. -/
def scoredRows (cfg : List TechRow) (stats : List CSRow) : List ScoreRow :=
  match latestWeek stats with
  | none => []
  | some wk => (stats.filter (fun r => r.week_start == wk)).map (scoredRow cfg stats)

/-- Result of one Lead Scorer run: the asset's returned value, its
diagnostic metadata, and the contents of the `lead_scores` table after
the run. -/
structure LeadOutput where
  value : Nat
  diagnostic : Option String
  table : List ScoreRow
deriving Repr, DecidableEq

/-- The Lead Scorer asset (lead_scores.py lines 45–247).  With no target
tech configured it returns value 0 with a diagnostic BEFORE the `DELETE
FROM lead_scores` (lines 54–59), leaving the previous table contents in
place; likewise when the query yields no rows (lines 203–208).  Otherwise
it replaces the table with the scored rows. -/
def lead_scores_asset (cfg : List TechRow) (stats : List CSRow)
    (prev : List ScoreRow) : LeadOutput :=
  if (targetsOf cfg).length = 0 then
    { value := 0, diagnostic := some "No target technologies configured", table := prev }
  else
    let df := scoredRows cfg stats
    if df.length = 0 then
      { value := 0, diagnostic := some "No data to score", table := prev }
    else
      { value := df.length, diagnostic := none, table := df }

/-! ## Concrete rows used by counterexamples and witnesses -/

/-- A raw job whose company contains a `'|'` field-separator character. -/
def rawPipeCompany : RawJob :=
  ⟨1, "a|b", "c", none, none, none, "u", "s", 0, 0⟩

/-- A raw job with a different (company, title, location) triple that
produces the same dedup key as `rawPipeCompany`. -/
def rawPipeTitle : RawJob :=
  ⟨2, "a", "b|c", none, none, none, "u", "s", 1, 1⟩

/-- A one-tech target configuration. -/
def cfgGo : List TechRow :=
  [⟨"Go", ["go"], "language", true, 1⟩]

/-- A configuration whose only row is not a target. -/
def cfgNoTarget : List TechRow :=
  [⟨"Go", ["go"], "language", false, 1⟩]

/-- Company a, week 0, 10 jobs. -/
def csA0 : CSRow := ⟨"a", "A", 0, 10, ""⟩

/-- Company a, week 7, 2 jobs. -/
def csA7 : CSRow := ⟨"a", "A", 7, 2, ""⟩

/-- Company b, week 7, 4 jobs. -/
def csB7 : CSRow := ⟨"b", "B", 7, 4, ""⟩

/-- A `company_stats` table whose global maximum of `jobs_posted` (10, in
week 0) exceeds the maximum of the scored week 7 (namely 4). -/
def statsWk : List CSRow := [csA0, csA7, csB7]

/-- A pre-existing `lead_scores` row, used to observe staleness. -/
def staleScore : ScoreRow := ⟨"old", "Old", 0, 1, 0, 100, 0, 100, 65, ""⟩

/-! ## C2 — the two seniority paths diverge -/

/-- C2: the claim says the main-path and fallback-path seniority
classifications agree for every title.  They do not: the fallback path
(company_stats.py lines 184–215) omits the `sr.`, `jr.` and `principal`
keywords of the main path (lines 90–98), so the title
`"Principal Engineer"` is classified Lead by the main path and Mid-Level
by the fallback path.  The spec itself declares such divergence a
correctness bug, so the code, not the claim, is at fault. -/
theorem C2_seniority_paths_diverge :
    seniorityMain "Principal Engineer" = "Lead" ∧
    seniorityFallback "Principal Engineer" = "Mid-Level" ∧
    seniorityMain "Principal Engineer" ≠ seniorityFallback "Principal Engineer" ∧
    seniorityMain "Sr. Staff Engineer" = "Senior" ∧
    seniorityFallback "Sr. Staff Engineer" = "Mid-Level" := by
  refine ⟨by decide, by decide, by decide, by decide, by decide⟩

/-! ## C10 — the dedup key is not injective -/

/-- C10: `dedup_key` is the `'|'`-joined concatenation of normalised
company, normalised title and null-coalesced location, and it is not
injective: `rawPipeCompany` and `rawPipeTitle` have distinct normalised
(company, title, location) triples yet the same key `"a|b|c|"`, and the
Normalizer merges them into a single cleaned row. -/
theorem C10_dedup_key_not_injective :
    (∀ r : RawJob,
      dedupKey r = normStr r.company ++ "|" ++ normStr r.title ++ "|" ++ r.location.getD "") ∧
    dedupKey rawPipeCompany = dedupKey rawPipeTitle ∧
    (normStr rawPipeCompany.company, normStr rawPipeCompany.title,
      rawPipeCompany.location) ≠
    (normStr rawPipeTitle.company, normStr rawPipeTitle.title,
      rawPipeTitle.location) ∧
    (cleaned_jobs_asset [rawPipeCompany, rawPipeTitle]).length = 1 := by
  refine ⟨fun r => rfl, by decide, by decide, by decide⟩

/-! ## C7 — short-circuit when no target techs -/

/-- C7: when no `tech_config` row has `is_target = true`, the Lead Scorer
returns value 0 with a diagnostic before running the scoring query
(lead_scores.py lines 49–59); embedded as a total function it raises
nothing. -/
theorem C7_no_target_short_circuit (cfg : List TechRow) (stats : List CSRow)
    (prev : List ScoreRow) (h : ∀ t ∈ cfg, t.is_target = false) :
    (lead_scores_asset cfg stats prev).value = 0 ∧
    (lead_scores_asset cfg stats prev).diagnostic =
      some "No target technologies configured" := by
  have hnil : targetsOf cfg = [] :=
    List.filter_eq_nil_iff.mpr (fun t ht => by simp [h t ht])
  simp [lead_scores_asset, hnil]

/-- Witness for C7 at the concrete non-target configuration. -/
theorem C7_no_target_short_circuit_witness :
    (lead_scores_asset cfgNoTarget statsWk [staleScore]).value = 0 ∧
    (lead_scores_asset cfgNoTarget statsWk [staleScore]).diagnostic =
      some "No target technologies configured" :=
  C7_no_target_short_circuit cfgNoTarget statsWk [staleScore] (by decide)

/-! ## C9 — the short-circuit path leaves stale lead_scores rows -/

/-- C9: the no-target early return happens before the
`DELETE FROM lead_scores` statement (lead_scores.py lines 54–59 versus
216–217), so whatever the table held from an earlier run is retained
unchanged. -/
theorem C9_short_circuit_keeps_stale_table (cfg : List TechRow)
    (stats : List CSRow) (prev : List ScoreRow)
    (h : ∀ t ∈ cfg, t.is_target = false) :
    (lead_scores_asset cfg stats prev).table = prev := by
  have hnil : targetsOf cfg = [] :=
    List.filter_eq_nil_iff.mpr (fun t ht => by simp [h t ht])
  simp [lead_scores_asset, hnil]

/-- Witness for C9: a stale score row from an earlier run survives. -/
theorem C9_short_circuit_keeps_stale_table_witness :
    (lead_scores_asset cfgNoTarget statsWk [staleScore]).table = [staleScore] :=
  C9_short_circuit_keeps_stale_table cfgNoTarget statsWk [staleScore] (by decide)

/-! ## C1 — volume_score normalisation -/

/-- Modelled from the spec's words for claim C1 (spec §4.3): the maximum
`jobs_posted` over the companies of the scored (latest) week only. -/
def maxJobsScoredWeek (stats : List CSRow) : Nat :=
  match latestWeek stats with
  | none => 0
  | some wk => ((stats.filter (fun r => r.week_start == wk)).map (·.jobs_posted)).foldl max 0

/-- Modelled from the spec's words for claim C1: volume_score with the
maximum taken over the scored week, to be compared with the
implementation. -/
def volumeScoreSpec (stats : List CSRow) (r : CSRow) : Rat :=
  round2 ((r.jobs_posted : Rat) / (maxJobsScoredWeek stats : Rat) * 100)

/-- C1 counterexample: in `statsWk` the scored week is 7, whose largest
`jobs_posted` is 4 (company b), but week 0 holds the global maximum 10.
The claim's formula gives company b `4 / 4 * 100 = 100`; the code's
`MAX(jobs_posted) OVER ()` window spans ALL weeks and stores
`4 / 10 * 100 = 40`. -/
theorem C1_volume_score_counterexample :
    ((lead_scores_asset cfgGo statsWk []).table.filter
        (fun x => x.company_normalized == "b")).map (·.volume_score) = [40] ∧
    volumeScoreSpec statsWk csB7 = 100 ∧
    (40 : Rat) ≠ 100 := by
  refine ⟨?_, ?_, by norm_num⟩
  · show [(scoredRow cfgGo statsWk csB7).volume_score] = [40]
    norm_num [scoredRow, round2, maxJobs, statsWk, csA0, csA7, csB7]
  · norm_num [volumeScoreSpec, round2, maxJobsScoredWeek, latestWeek, maxList,
      statsWk, csA0, csA7, csB7]

/-- C1 amended: for every company-stats row `r` scored in the latest week,
its stored `volume_score` is `jobs_this_week` divided by the maximum
`jobs_posted` over ALL `company_stats` rows of ALL weeks (not only the
scored week), times 100, rounded to two decimals. -/
theorem C1_volume_score_global_max (cfg : List TechRow) (stats : List CSRow)
    (r : CSRow) (hr : r ∈ stats) (hwk : latestWeek stats = some r.week_start) :
    scoredRow cfg stats r ∈ scoredRows cfg stats ∧
    (scoredRow cfg stats r).volume_score =
      round2 ((r.jobs_posted : Rat) / (maxJobs stats : Rat) * 100) := by
  constructor
  · unfold scoredRows
    rw [hwk]
    exact List.mem_map_of_mem _ (List.mem_filter.mpr ⟨hr, by simp⟩)
  · rfl

/-- Witness for C1 at the concrete table `statsWk`. -/
theorem C1_volume_score_global_max_witness :
    scoredRow cfgGo statsWk csB7 ∈ scoredRows cfgGo statsWk ∧
    (scoredRow cfgGo statsWk csB7).volume_score =
      round2 ((csB7.jobs_posted : Rat) / (maxJobs statsWk : Rat) * 100) :=
  C1_volume_score_global_max cfgGo statsWk csB7 (by decide) (by decide)

/-! ## Shared lemmas about rounding, the LAG fold and scored rows -/

lemma round2_mono {x y : Rat} (h : x ≤ y) : round2 x ≤ round2 y := by
  unfold round2
  have hr : round (x * 100) ≤ round (y * 100) := by
    rw [round_eq, round_eq]
    exact Int.floor_mono (by linarith)
  have hc : ((round (x * 100) : Int) : Rat) ≤ ((round (y * 100) : Int) : Rat) :=
    Int.cast_le.mpr hr
  linarith

lemma round2_hundred : round2 100 = 100 := by
  norm_num [round2]

lemma round2_zero : round2 0 = 0 := by
  norm_num [round2]

lemma round2_le_hundred {x : Rat} (h : x ≤ 100) : round2 x ≤ 100 :=
  round2_hundred ▸ round2_mono h

lemma round2_nonneg {x : Rat} (h : 0 ≤ x) : 0 ≤ round2 x :=
  round2_zero ▸ round2_mono h

lemma pickLater_ne_none (acc : Option CSRow) (s : CSRow) : pickLater acc s ≠ none := by
  cases acc with
  | none => simp [pickLater]
  | some m =>
    by_cases h : m.week_start < s.week_start <;> simp [pickLater, h]

lemma foldl_pickLater_eq_none_iff (l : List CSRow) (acc : Option CSRow) :
    l.foldl pickLater acc = none ↔ acc = none ∧ l = [] := by
  induction l generalizing acc with
  | nil => simp
  | cons s t ih =>
    simp only [List.foldl_cons]
    rw [ih]
    simp [pickLater_ne_none acc s]

lemma foldl_pickLater_spec (l : List CSRow) (acc : Option CSRow) (m : CSRow)
    (hm : l.foldl pickLater acc = some m) :
    (m ∈ l ∨ acc = some m) ∧
    (∀ s ∈ l, s.week_start ≤ m.week_start) ∧
    (∀ a, acc = some a → a.week_start ≤ m.week_start) := by
  induction l generalizing acc with
  | nil =>
    refine ⟨Or.inr hm, by simp, fun a ha => ?_⟩
    simp only [List.foldl_nil] at hm
    rw [ha] at hm
    simp_all
  | cons s t ih =>
    simp only [List.foldl_cons] at hm
    obtain ⟨hmem, hub, hacc⟩ := ih (pickLater acc s) hm
    cases acc with
    | none =>
      have hps : pickLater none s = some s := rfl
      refine ⟨?_, ?_, by simp⟩
      · rcases hmem with h | h
        · exact Or.inl (List.mem_cons_of_mem _ h)
        · rw [hps] at h
          exact Or.inl (by simp [Option.some.injEq] at h; simp [h])
      · intro x hx
        rcases List.mem_cons.mp hx with rfl | hxt
        · exact hacc x hps
        · exact hub x hxt
    | some a0 =>
      by_cases hlt : a0.week_start < s.week_start
      · have hps : pickLater (some a0) s = some s := by simp [pickLater, hlt]
        refine ⟨?_, ?_, ?_⟩
        · rcases hmem with h | h
          · exact Or.inl (List.mem_cons_of_mem _ h)
          · rw [hps] at h
            exact Or.inl (by simp [Option.some.injEq] at h; simp [h])
        · intro x hx
          rcases List.mem_cons.mp hx with rfl | hxt
          · exact hacc x hps
          · exact hub x hxt
        · intro a ha
          have hs : s.week_start ≤ m.week_start := hacc s hps
          have : a = a0 := by simp_all
          subst this
          exact le_trans (le_of_lt hlt) hs
      · have hps : pickLater (some a0) s = some a0 := by simp [pickLater, hlt]
        refine ⟨?_, ?_, ?_⟩
        · rcases hmem with h | h
          · exact Or.inl (List.mem_cons_of_mem _ h)
          · rw [hps] at h
            exact Or.inr h
        · intro x hx
          have ha0 : a0.week_start ≤ m.week_start := hacc a0 hps
          rcases List.mem_cons.mp hx with rfl | hxt
          · exact le_trans (le_of_not_lt hlt) ha0
          · exact hub x hxt
        · intro a ha
          have haa : a = a0 := by simp_all
          rw [haa]
          exact hacc a0 hps

/-- Every `company_stats` row of the latest week contributes its scored
row to the query result. -/
lemma scoredRow_mem_scoredRows (cfg : List TechRow) (stats : List CSRow)
    (r : CSRow) (hr : r ∈ stats) (hwk : latestWeek stats = some r.week_start) :
    scoredRow cfg stats r ∈ scoredRows cfg stats := by
  unfold scoredRows
  rw [hwk]
  exact List.mem_map_of_mem _ (List.mem_filter.mpr ⟨hr, by simp⟩)

lemma velocityRaw_le_hundred (cur : Nat) (lag : Option Nat) :
    velocityRaw cur lag ≤ 100 := by
  match lag with
  | none => exact le_refl _
  | some 0 => exact le_refl _
  | some (n + 1) => exact min_le_right _ _

/-! ## C4 — jobs_last_week and velocity_score -/

/-- C4: for every company-stats row scored in the latest week,
`jobs_last_week` is the `jobs_posted` of the chronologically immediately
preceding `week_start` in that company's own history (0 when there is
none), `velocity_score` is 100 when that value is absent or 0 and
otherwise `min(100, (jobs_this_week - jobs_last_week) / jobs_last_week *
100)` (rounded to two decimals); it never exceeds 100, and the concrete
run on `statsWk` shows it can be negative — there is no lower clamp at 0. -/
theorem C4_jobs_last_week_velocity (cfg : List TechRow) (stats : List CSRow)
    (r : CSRow) (hr : r ∈ stats) (hwk : latestWeek stats = some r.week_start) :
    scoredRow cfg stats r ∈ scoredRows cfg stats ∧
    ((¬ ∃ s ∈ stats, s.company_normalized = r.company_normalized ∧
          s.week_start < r.week_start) ∧
        (scoredRow cfg stats r).jobs_last_week = 0 ∧
        (scoredRow cfg stats r).velocity_score = 100 ∨
      ∃ p ∈ stats,
        p.company_normalized = r.company_normalized ∧
        p.week_start < r.week_start ∧
        (∀ s ∈ stats, s.company_normalized = r.company_normalized →
          s.week_start < r.week_start → s.week_start ≤ p.week_start) ∧
        (scoredRow cfg stats r).jobs_last_week = p.jobs_posted ∧
        (p.jobs_posted = 0 → (scoredRow cfg stats r).velocity_score = 100) ∧
        (0 < p.jobs_posted → (scoredRow cfg stats r).velocity_score =
          round2 (min (((r.jobs_posted : Rat) - (p.jobs_posted : Rat)) /
            (p.jobs_posted : Rat) * 100) 100))) ∧
    (scoredRow cfg stats r).velocity_score ≤ 100 ∧
    (scoredRow cfgGo statsWk csA7).velocity_score = -80 ∧ (-80 : Rat) < 0 := by
  have hjlw : (scoredRow cfg stats r).jobs_last_week = (lagJobs stats r).getD 0 := rfl
  have hvel : (scoredRow cfg stats r).velocity_score =
      round2 (velocityRaw r.jobs_posted (lagJobs stats r)) := rfl
  refine ⟨scoredRow_mem_scoredRows cfg stats r hr hwk, ?_, ?_, ?_, by norm_num⟩
  · have hlag : lagJobs stats r =
        ((stats.filter (fun s => s.company_normalized == r.company_normalized &&
          s.week_start < r.week_start)).foldl pickLater none).map (·.jobs_posted) := rfl
    cases hfold : (stats.filter (fun s =>
        s.company_normalized == r.company_normalized &&
        s.week_start < r.week_start)).foldl pickLater none with
    | none =>
      left
      have hnil := (foldl_pickLater_eq_none_iff _ _).mp hfold
      refine ⟨?_, ?_, ?_⟩
      · rintro ⟨s, hs, hcn, hws⟩
        have : s ∈ (stats.filter (fun s =>
            s.company_normalized == r.company_normalized &&
            s.week_start < r.week_start)) :=
          List.mem_filter.mpr ⟨hs, by simp [hcn, hws]⟩
        rw [hnil.2] at this
        exact absurd this (List.not_mem_nil s)
      · rw [hjlw, hlag, hfold]
        rfl
      · rw [hvel, hlag, hfold]
        exact round2_hundred
    | some p =>
      right
      obtain ⟨hmem, hub, -⟩ := foldl_pickLater_spec _ _ p hfold
      have hpf : p ∈ (stats.filter (fun s =>
          s.company_normalized == r.company_normalized &&
          s.week_start < r.week_start)) := by
        rcases hmem with h | h
        · exact h
        · exact absurd h (by simp)
      have hp := List.mem_filter.mp hpf
      have hpcn : p.company_normalized = r.company_normalized := by
        have := hp.2
        simp only [Bool.and_eq_true, beq_iff_eq, decide_eq_true_eq] at this
        exact this.1
      have hpws : p.week_start < r.week_start := by
        have := hp.2
        simp only [Bool.and_eq_true, beq_iff_eq, decide_eq_true_eq] at this
        exact this.2
      have hlp : lagJobs stats r = some p.jobs_posted := by
        rw [hlag, hfold]
        rfl
      refine ⟨p, hp.1, hpcn, hpws, ?_, ?_, ?_, ?_⟩
      · intro s hs hcn hws
        exact hub s (List.mem_filter.mpr ⟨hs, by simp [hcn, hws]⟩)
      · rw [hjlw, hlp]
        rfl
      · intro h0
        rw [hvel, hlp, h0]
        exact round2_hundred
      · intro hpos
        obtain ⟨n, hn⟩ := Nat.exists_eq_succ_of_ne_zero (Nat.pos_iff_ne_zero.mp hpos)
        rw [hvel, hlp, hn]
        rfl
  · rw [hvel]
    exact round2_le_hundred (velocityRaw_le_hundred _ _)
  · show round2 (velocityRaw csA7.jobs_posted (lagJobs statsWk csA7)) = -80
    have hlag : lagJobs statsWk csA7 = some 10 := rfl
    rw [hlag]
    show round2 (min (((2 : Rat) - 10) / 10 * 100) 100) = -80
    norm_num [round2, round_eq]

/-- Witness for C4 at the concrete table `statsWk` and the scored row of
company a, whose preceding week exists. -/
theorem C4_jobs_last_week_velocity_witness :
    scoredRow cfgGo statsWk csA7 ∈ scoredRows cfgGo statsWk ∧
    ((¬ ∃ s ∈ statsWk, s.company_normalized = csA7.company_normalized ∧
          s.week_start < csA7.week_start) ∧
        (scoredRow cfgGo statsWk csA7).jobs_last_week = 0 ∧
        (scoredRow cfgGo statsWk csA7).velocity_score = 100 ∨
      ∃ p ∈ statsWk,
        p.company_normalized = csA7.company_normalized ∧
        p.week_start < csA7.week_start ∧
        (∀ s ∈ statsWk, s.company_normalized = csA7.company_normalized →
          s.week_start < csA7.week_start → s.week_start ≤ p.week_start) ∧
        (scoredRow cfgGo statsWk csA7).jobs_last_week = p.jobs_posted ∧
        (p.jobs_posted = 0 → (scoredRow cfgGo statsWk csA7).velocity_score = 100) ∧
        (0 < p.jobs_posted → (scoredRow cfgGo statsWk csA7).velocity_score =
          round2 (min (((csA7.jobs_posted : Rat) - (p.jobs_posted : Rat)) /
            (p.jobs_posted : Rat) * 100) 100))) ∧
    (scoredRow cfgGo statsWk csA7).velocity_score ≤ 100 ∧
    (scoredRow cfgGo statsWk csA7).velocity_score = -80 ∧ (-80 : Rat) < 0 :=
  C4_jobs_last_week_velocity cfgGo statsWk csA7 (by decide) (by decide)

/-! ## C5 — tech_match_score -/

/-- C5: for every company-stats row scored in the latest week, the stored
`tech_match_score` is 0 when the summed target weights are 0, otherwise
(sum of `score_weight` over the target techs whose `tech_name` is a
substring of the serialized `tech_stack`) / (sum of all target weights) *
100, rounded to two decimals; when every configured weight is
non-negative the stored score lies in [0, 100]. -/
theorem C5_tech_match_score (cfg : List TechRow) (stats : List CSRow)
    (r : CSRow) (hr : r ∈ stats) (hwk : latestWeek stats = some r.week_start) :
    scoredRow cfg stats r ∈ scoredRows cfg stats ∧
    (totalWeight cfg = 0 → (scoredRow cfg stats r).tech_match_score = 0) ∧
    (totalWeight cfg ≠ 0 → (scoredRow cfg stats r).tech_match_score =
      round2 (matchedWeight cfg r.tech_stack / totalWeight cfg * 100)) ∧
    ((∀ t ∈ cfg, 0 ≤ t.score_weight) →
      0 ≤ (scoredRow cfg stats r).tech_match_score ∧
      (scoredRow cfg stats r).tech_match_score ≤ 100) := by
  have htm : (scoredRow cfg stats r).tech_match_score =
      round2 (techMatchRaw cfg r.tech_stack) := rfl
  refine ⟨scoredRow_mem_scoredRows cfg stats r hr hwk, ?_, ?_, ?_⟩
  · intro h0
    rw [htm]
    unfold techMatchRaw
    rw [if_pos h0]
    exact round2_zero
  · intro h0
    rw [htm]
    unfold techMatchRaw
    rw [if_neg h0]
  · intro hw
    have hwt : ∀ t ∈ targetsOf cfg, 0 ≤ t.score_weight :=
      fun t ht => hw t (List.mem_filter.mp ht).1
    by_cases h0 : totalWeight cfg = 0
    · rw [htm]
      unfold techMatchRaw
      rw [if_pos h0, round2_zero]
      norm_num
    · have hTnn : 0 ≤ totalWeight cfg :=
        List.sum_nonneg (fun x hx => by
          obtain ⟨t, ht, rfl⟩ := List.mem_map.mp hx
          exact hwt t ht)
      have hTpos : 0 < totalWeight cfg := lt_of_le_of_ne hTnn (Ne.symm h0)
      have hMnn : 0 ≤ matchedWeight cfg r.tech_stack :=
        List.sum_nonneg (fun x hx => by
          obtain ⟨t, ht, rfl⟩ := List.mem_map.mp hx
          exact hwt t (List.mem_of_mem_filter ht))
      have hMT : matchedWeight cfg r.tech_stack ≤ totalWeight cfg :=
        List.Sublist.sum_le_sum
          (List.Sublist.map (fun t : TechRow => t.score_weight)
            (List.filter_sublist (targetsOf cfg)))
          (fun x hx => by
            obtain ⟨t, ht, rfl⟩ := List.mem_map.mp hx
            exact hwt t ht)
      have hraw0 : 0 ≤ techMatchRaw cfg r.tech_stack := by
        unfold techMatchRaw
        rw [if_neg h0]
        positivity
      have hraw100 : techMatchRaw cfg r.tech_stack ≤ 100 := by
        unfold techMatchRaw
        rw [if_neg h0]
        have hdiv : matchedWeight cfg r.tech_stack / totalWeight cfg ≤ 1 :=
          (div_le_one hTpos).mpr hMT
        nlinarith
      rw [htm]
      exact ⟨round2_nonneg hraw0, round2_le_hundred hraw100⟩

/-- Witness for C5 at the concrete table `statsWk`. -/
theorem C5_tech_match_score_witness :
    scoredRow cfgGo statsWk csB7 ∈ scoredRows cfgGo statsWk ∧
    (totalWeight cfgGo = 0 → (scoredRow cfgGo statsWk csB7).tech_match_score = 0) ∧
    (totalWeight cfgGo ≠ 0 → (scoredRow cfgGo statsWk csB7).tech_match_score =
      round2 (matchedWeight cfgGo csB7.tech_stack / totalWeight cfgGo * 100)) ∧
    ((∀ t ∈ cfgGo, 0 ≤ t.score_weight) →
      0 ≤ (scoredRow cfgGo statsWk csB7).tech_match_score ∧
      (scoredRow cfgGo statsWk csB7).tech_match_score ≤ 100) :=
  C5_tech_match_score cfgGo statsWk csB7 (by decide) (by decide)

/-! ## C6 — composite_score -/

/-- C6: for every company-stats row scored in the latest week, the stored
`composite_score` is `0.40 * velocity + 0.35 * tech_match + 0.25 *
volume` rounded to two decimals (computed from the unrounded sub-scores,
which are themselves stored rounded to two decimals); the literal
sub-score inputs 100/50/20 give 62.5; and the concrete run on `statsWk`
yields a negative composite — there is no clamp to [0, 100]. -/
theorem C6_composite_score (cfg : List TechRow) (stats : List CSRow)
    (r : CSRow) (hr : r ∈ stats) (hwk : latestWeek stats = some r.week_start) :
    scoredRow cfg stats r ∈ scoredRows cfg stats ∧
    (scoredRow cfg stats r).composite_score =
      round2 ((0.40 : Rat) * velocityRaw r.jobs_posted (lagJobs stats r) +
        0.35 * techMatchRaw cfg r.tech_stack +
        0.25 * ((r.jobs_posted : Rat) / (maxJobs stats : Rat) * 100)) ∧
    (scoredRow cfg stats r).velocity_score =
      round2 (velocityRaw r.jobs_posted (lagJobs stats r)) ∧
    (scoredRow cfg stats r).tech_match_score =
      round2 (techMatchRaw cfg r.tech_stack) ∧
    (scoredRow cfg stats r).volume_score =
      round2 ((r.jobs_posted : Rat) / (maxJobs stats : Rat) * 100) ∧
    round2 ((0.4 : Rat) * 100 + 0.35 * 50 + 0.25 * 20) = 62.5 ∧
    (scoredRow cfgGo statsWk csA7).composite_score < 0 := by
  refine ⟨scoredRow_mem_scoredRows cfg stats r hr hwk, ?_, rfl, rfl, rfl, ?_, ?_⟩
  · show round2 (velocityRaw r.jobs_posted (lagJobs stats r) * 0.4 +
        techMatchRaw cfg r.tech_stack * 0.35 +
        ((r.jobs_posted : Rat) / (maxJobs stats : Rat) * 100) * 0.25) = _
    congr 1
    ring
  · norm_num [round2]
  · have hlag : lagJobs statsWk csA7 = some 10 := rfl
    have hvel : velocityRaw csA7.jobs_posted (lagJobs statsWk csA7) = -80 := by
      rw [hlag]
      show min (((2 : Rat) - 10) / 10 * 100) 100 = -80
      norm_num
    have htm : techMatchRaw cfgGo csA7.tech_stack = 0 := by
      have hm : matchedWeight cfgGo csA7.tech_stack = 0 := rfl
      have ht : totalWeight cfgGo = 1 := by
        norm_num [totalWeight, targetsOf, cfgGo]
      unfold techMatchRaw
      rw [ht, hm]
      norm_num
    show round2 (velocityRaw csA7.jobs_posted (lagJobs statsWk csA7) * 0.4 +
        techMatchRaw cfgGo csA7.tech_stack * 0.35 +
        ((csA7.jobs_posted : Rat) / (maxJobs statsWk : Rat) * 100) * 0.25) < 0
    rw [hvel, htm]
    have hmj : maxJobs statsWk = 10 := rfl
    have hjp : (csA7.jobs_posted : Rat) = 2 := rfl
    rw [hmj, hjp]
    norm_num [round2, round_eq]

/-- Witness for C6 at the concrete table `statsWk`. -/
theorem C6_composite_score_witness :
    scoredRow cfgGo statsWk csB7 ∈ scoredRows cfgGo statsWk ∧
    (scoredRow cfgGo statsWk csB7).composite_score =
      round2 ((0.40 : Rat) * velocityRaw csB7.jobs_posted (lagJobs statsWk csB7) +
        0.35 * techMatchRaw cfgGo csB7.tech_stack +
        0.25 * ((csB7.jobs_posted : Rat) / (maxJobs statsWk : Rat) * 100)) ∧
    (scoredRow cfgGo statsWk csB7).velocity_score =
      round2 (velocityRaw csB7.jobs_posted (lagJobs statsWk csB7)) ∧
    (scoredRow cfgGo statsWk csB7).tech_match_score =
      round2 (techMatchRaw cfgGo csB7.tech_stack) ∧
    (scoredRow cfgGo statsWk csB7).volume_score =
      round2 ((csB7.jobs_posted : Rat) / (maxJobs statsWk : Rat) * 100) ∧
    round2 ((0.4 : Rat) * 100 + 0.35 * 50 + 0.25 * 20) = 62.5 ∧
    (scoredRow cfgGo statsWk csA7).composite_score < 0 :=
  C6_composite_score cfgGo statsWk csB7 (by decide) (by decide)

/-! ## Shared lemmas for the grouping arguments (C8, C3) -/

lemma filter_length_le_one {β : Type} {l : List β} {p : β → Bool}
    (hnd : l.Nodup)
    (hall : ∀ a ∈ l, ∀ b ∈ l, p a = true → p b = true → a = b) :
    (l.filter p).length ≤ 1 := by
  rcases hm : l.filter p with - | ⟨a, - | ⟨b, t⟩⟩
  · simp
  · simp
  · exfalso
    have ha := List.mem_filter.mp (hm ▸ List.mem_cons_self a (b :: t))
    have hb := List.mem_filter.mp (hm ▸ List.mem_cons_of_mem a (List.mem_cons_self b t))
    have hab : a = b := hall a ha.1 b hb.1 ha.2 hb.2
    have hnd' : (a :: b :: t).Nodup := hm ▸ hnd.filter p
    rw [List.nodup_cons] at hnd'
    exact hnd'.1 (hab ▸ List.mem_cons_self b t)

lemma filter_length_eq_one {β : Type} {l : List β} {p : β → Bool}
    (hnd : l.Nodup)
    (hall : ∀ a ∈ l, ∀ b ∈ l, p a = true → p b = true → a = b)
    (hex : ∃ a ∈ l, p a = true) :
    (l.filter p).length = 1 := by
  refine le_antisymm (filter_length_le_one hnd hall) ?_
  obtain ⟨a, ha, hpa⟩ := hex
  have : a ∈ l.filter p := List.mem_filter.mpr ⟨ha, hpa⟩
  exact List.length_pos.mpr (List.ne_nil_of_mem this)

lemma foldl_min_of_le (xs : List Int) (a : Int) (h : ∀ x ∈ xs, a ≤ x) :
    xs.foldl min a = a := by
  induction xs with
  | nil => rfl
  | cons x t ih =>
    simp only [List.foldl_cons]
    rw [min_eq_left (h x (List.mem_cons_self x t))]
    exact ih (fun y hy => h y (List.mem_cons_of_mem x hy))

lemma le_foldl_max (xs : List Int) (a : Int) :
    a ≤ xs.foldl max a ∧ ∀ x ∈ xs, x ≤ xs.foldl max a := by
  induction xs generalizing a with
  | nil => exact ⟨le_refl a, by simp⟩
  | cons x t ih =>
    obtain ⟨h1, h2⟩ := ih (max a x)
    refine ⟨le_trans (le_max_left a x) h1, fun y hy => ?_⟩
    rcases List.mem_cons.mp hy with rfl | hyt
    · exact le_trans (le_max_right a y) h1
    · exact h2 y hyt

lemma foldl_max_mem (xs : List Int) (a : Int) :
    xs.foldl max a = a ∨ xs.foldl max a ∈ xs := by
  induction xs generalizing a with
  | nil => exact Or.inl rfl
  | cons x t ih =>
    simp only [List.foldl_cons]
    rcases ih (max a x) with h | h
    · rcases max_choice a x with hm | hm
      · exact Or.inl (h.trans hm)
      · exact Or.inr (List.mem_cons.mpr (Or.inl (h.trans hm)))
    · exact Or.inr (List.mem_cons_of_mem x h)

lemma aggGroup_eq_some {L : List RawJob} {c : CleanedJob} (h : aggGroup L = some c) :
    ∃ r rest, L = r :: rest ∧
      c.job_id = r.job_id ∧ c.company = r.company ∧
      c.company_normalized = normStr r.company ∧ c.title = r.title ∧
      c.title_normalized = normStr r.title ∧ c.description = r.description ∧
      c.location = r.location ∧ c.posting_date = r.posting_date ∧
      c.url = r.url ∧ c.source = r.source ∧
      c.first_seen = (rest.map (·.first_scraped_at)).foldl min r.first_scraped_at ∧
      c.last_seen = (rest.map (·.last_scraped_at)).foldl max r.last_scraped_at := by
  cases L with
  | nil => simp [aggGroup] at h
  | cons r rest =>
    injection h with h2
    subst h2
    exact ⟨r, rest, rfl, rfl, rfl, rfl, rfl, rfl, rfl, rfl, rfl, rfl, rfl, rfl, rfl⟩

lemma cleanedKey_of_filter_aggGroup {L : List RawJob} {k : String} {c : CleanedJob}
    (h : aggGroup (L.filter (fun r => dedupKey r == k)) = some c) :
    cleanedKey c = k := by
  obtain ⟨r, rest, hL, -, -, hcn, -, htn, -, hloc, -, -, -, -, -⟩ := aggGroup_eq_some h
  have hr : r ∈ L.filter (fun r => dedupKey r == k) := hL ▸ List.mem_cons_self r rest
  have hk : dedupKey r = k := by
    have := (List.mem_filter.mp hr).2
    simpa using this
  rw [cleanedKey, hcn, htn, hloc]
  exact hk

/-! ## C8 — Normalizer grouping invariants -/

/-- C8: the Normalizer keeps at most one row per dedup key, and for each
output row `c` the group of raw rows sharing its key contains a member
`m` of minimal `first_scraped_at` that supplies every non-date field,
`first_seen` is the group minimum of `first_scraped_at` (attained at `m`
and a lower bound of the group) and `last_seen` is the group maximum of
`last_scraped_at`. -/
theorem C8_normalizer_dedup (raw : List RawJob) (k0 : String) (c : CleanedJob)
    (hc : c ∈ cleaned_jobs_asset raw) :
    ((cleaned_jobs_asset raw).filter (fun x => cleanedKey x == k0)).length ≤ 1 ∧
    (∃ m ∈ raw.filter (fun x => dedupKey x == cleanedKey c),
      (∀ x ∈ raw.filter (fun x => dedupKey x == cleanedKey c),
        m.first_scraped_at ≤ x.first_scraped_at) ∧
      c.company = m.company ∧ c.title = m.title ∧ c.description = m.description ∧
      c.url = m.url ∧ c.source = m.source ∧ c.location = m.location ∧
      c.first_seen = m.first_scraped_at) ∧
    (∃ m2 ∈ raw.filter (fun x => dedupKey x == cleanedKey c),
      c.last_seen = m2.last_scraped_at ∧
      ∀ x ∈ raw.filter (fun x => dedupKey x == cleanedKey c),
        x.last_scraped_at ≤ c.last_seen) := by
  have hout : cleaned_jobs_asset raw =
      (((List.insertionSort scrapedLE raw).map dedupKey).dedup).filterMap
        (fun k => aggGroup ((List.insertionSort scrapedLE raw).filter
          (fun r => dedupKey r == k))) := rfl
  refine ⟨?_, ?_⟩
  · apply filter_length_le_one
    · rw [hout]
      refine List.Nodup.filterMap ?_ (List.nodup_dedup _)
      intro a b c' hca hcb
      rw [Option.mem_def] at hca hcb
      rw [← cleanedKey_of_filter_aggGroup hca, ← cleanedKey_of_filter_aggGroup hcb]
    · intro a ha b hb hpa hpb
      rw [hout] at ha hb
      obtain ⟨ka, hka, hfa⟩ := List.mem_filterMap.mp ha
      obtain ⟨kb, hkb, hfb⟩ := List.mem_filterMap.mp hb
      have hkeya : cleanedKey a = ka := cleanedKey_of_filter_aggGroup hfa
      have hkeyb : cleanedKey b = kb := cleanedKey_of_filter_aggGroup hfb
      have hka0 : ka = k0 := by
        rw [← hkeya]
        simpa using hpa
      have hkb0 : kb = k0 := by
        rw [← hkeyb]
        simpa using hpb
      rw [hka0] at hfa
      rw [hkb0] at hfb
      exact Option.some.inj (hfa.symm.trans hfb)
  · have hc' : c ∈ (((List.insertionSort scrapedLE raw).map dedupKey).dedup).filterMap
        (fun k => aggGroup ((List.insertionSort scrapedLE raw).filter
          (fun r => dedupKey r == k))) := hout ▸ hc
    obtain ⟨k, hkmem, hfk⟩ := List.mem_filterMap.mp hc'
    have hkey : cleanedKey c = k := cleanedKey_of_filter_aggGroup hfk
    obtain ⟨r, rest, hL, hjid, hco, hcn, hti, htn, hde, hlo, hpd, hur, hso, hfs, hls⟩ :=
      aggGroup_eq_some hfk
    have hsorted : List.Sorted scrapedLE (List.insertionSort scrapedLE raw) :=
      List.sorted_insertionSort scrapedLE raw
    have hsf : List.Sorted scrapedLE
        ((List.insertionSort scrapedLE raw).filter (fun r => dedupKey r == k)) :=
      hsorted.filter _
    rw [hL] at hsf
    have hrmin : ∀ x ∈ rest, r.first_scraped_at ≤ x.first_scraped_at :=
      (List.sorted_cons.mp hsf).1
    have hperm : ((List.insertionSort scrapedLE raw).filter
        (fun r => dedupKey r == k)).Perm (raw.filter (fun r => dedupKey r == k)) :=
      (List.perm_insertionSort scrapedLE raw).filter _
    have hmem_iff : ∀ x, x ∈ raw.filter (fun r => dedupKey r == k) ↔ x = r ∨ x ∈ rest := by
      intro x
      rw [← hperm.mem_iff, hL, List.mem_cons]
    have hrg : r ∈ raw.filter (fun r => dedupKey r == k) :=
      (hmem_iff r).mpr (Or.inl rfl)
    have hlb : ∀ x ∈ raw.filter (fun r => dedupKey r == k),
        r.first_scraped_at ≤ x.first_scraped_at := by
      intro x hx
      rcases (hmem_iff x).mp hx with rfl | hxr
      · exact le_refl _
      · exact hrmin x hxr
    rw [hkey]
    constructor
    · refine ⟨r, hrg, hlb, hco, hti, hde, hur, hso, hlo, ?_⟩
      rw [hfs]
      apply foldl_min_of_le
      intro y hy
      obtain ⟨x, hx, rfl⟩ := List.mem_map.mp hy
      exact hrmin x hx
    · have hub := le_foldl_max (rest.map (·.last_scraped_at)) r.last_scraped_at
      have hubg : ∀ x ∈ raw.filter (fun r => dedupKey r == k),
          x.last_scraped_at ≤ c.last_seen := by
        intro x hx
        rw [hls]
        rcases (hmem_iff x).mp hx with rfl | hxr
        · exact hub.1
        · exact hub.2 _ (List.mem_map_of_mem _ hxr)
      rcases foldl_max_mem (rest.map (·.last_scraped_at)) r.last_scraped_at with h | h
      · exact ⟨r, hrg, by rw [hls, h], hubg⟩
      · obtain ⟨x, hx, hxe⟩ := List.mem_map.mp h
        exact ⟨x, (hmem_iff x).mpr (Or.inr hx), by rw [hls, hxe], hubg⟩

/-- Two raw observations of the same posting (same normalised company,
title and location, different scrape times). -/
def rawDupA : RawJob :=
  ⟨1, "Acme", "Dev", some "d1", some "Toronto", some 3, "u1", "s1", 10, 20⟩

/-- The earlier observation of the `rawDupA` posting. -/
def rawDupB : RawJob :=
  ⟨2, " ACME ", "DEV", some "d2", some "Toronto", some 4, "u2", "s2", 5, 30⟩

/-- The single cleaned row the Normalizer produces from
`[rawDupA, rawDupB]`: non-date fields from `rawDupB` (earliest
`first_scraped_at`), `first_seen` 5, `last_seen` 30. -/
def cleanedDup : CleanedJob :=
  ⟨2, " ACME ", "acme", "DEV", "dev", some "d2", some "Toronto", some 4,
    "u2", "s2", 5, 30⟩

/-- Witness for C8 on the concrete duplicate pair. -/
theorem C8_normalizer_dedup_witness :
    ((cleaned_jobs_asset [rawDupA, rawDupB]).filter
        (fun x => cleanedKey x == "acme|dev|Toronto")).length ≤ 1 ∧
    (∃ m ∈ [rawDupA, rawDupB].filter (fun x => dedupKey x == cleanedKey cleanedDup),
      (∀ x ∈ [rawDupA, rawDupB].filter (fun x => dedupKey x == cleanedKey cleanedDup),
        m.first_scraped_at ≤ x.first_scraped_at) ∧
      cleanedDup.company = m.company ∧ cleanedDup.title = m.title ∧
      cleanedDup.description = m.description ∧
      cleanedDup.url = m.url ∧ cleanedDup.source = m.source ∧
      cleanedDup.location = m.location ∧
      cleanedDup.first_seen = m.first_scraped_at) ∧
    (∃ m2 ∈ [rawDupA, rawDupB].filter (fun x => dedupKey x == cleanedKey cleanedDup),
      cleanedDup.last_seen = m2.last_scraped_at ∧
      ∀ x ∈ [rawDupA, rawDupB].filter (fun x => dedupKey x == cleanedKey cleanedDup),
        x.last_scraped_at ≤ cleanedDup.last_seen) :=
  C8_normalizer_dedup [rawDupA, rawDupB] "acme|dev|Toronto" cleanedDup (by decide)

lemma length_filter_map_eq {α β : Type} (f : α → β) (l : List α) (p : β → Bool) :
    ((l.map f).filter p).length = (l.filter (fun a => p (f a))).length := by
  rw [List.filter_map, List.length_map]
  rfl

lemma mem_weeklyJobs {cleaned : List CleanedJob} {j : WJob}
    (hj : j ∈ weeklyJobs cleaned) :
    ∃ cj ∈ cleaned, j.company_normalized = cj.company_normalized ∧
      j.company = cj.company := by
  obtain ⟨cj, hcj, heq⟩ := List.mem_filterMap.mp hj
  cases hpd : cj.posting_date with
  | none => rw [hpd] at heq; simp at heq
  | some d =>
    rw [hpd] at heq
    injection heq with heq2
    subst heq2
    exact ⟨cj, hcj, rfl, rfl⟩

lemma mem_detectedTechs {cfg : List TechRow} {W : List WJob} {d : DRow}
    (hd : d ∈ detectedTechs cfg W) :
    ∃ j ∈ W, d.company_normalized = j.company_normalized ∧
      d.company = j.company ∧ d.week_start = j.week_start := by
  obtain ⟨j, hj, hdj⟩ := List.mem_flatMap.mp hd
  obtain ⟨t, ht, heq⟩ := List.mem_filterMap.mp hdj
  by_cases hmatch : hasTech t j = true
  · rw [if_pos hmatch] at heq
    injection heq with heq2
    subst heq2
    exact ⟨j, hj, rfl, rfl, rfl⟩
  · rw [if_neg hmatch] at heq
    simp at heq

lemma mem_aggregatedWithTechs {D : List DRow} {a : AggRow}
    (ha : a ∈ aggregatedWithTechs D) :
    ∃ d ∈ D, a.company_normalized = d.company_normalized ∧
      a.company = d.company ∧ a.week_start = d.week_start := by
  obtain ⟨k, hk, heq⟩ := List.mem_map.mp ha
  obtain ⟨d, hd, hkd⟩ := List.mem_map.mp (List.mem_dedup.mp hk)
  subst heq
  refine ⟨d, hd, ?_, ?_, ?_⟩ <;> rw [← hkd]

lemma mem_companiesWithoutTechs {D : List DRow} {W : List WJob} {b : AggRow}
    (hb : b ∈ companiesWithoutTechs D W) :
    b.tech_array = [] ∧
    ∃ j ∈ W,
      (¬ ∃ d ∈ D, d.company_normalized = j.company_normalized ∧
        d.week_start = j.week_start) ∧
      b.company_normalized = j.company_normalized ∧
      b.company = j.company ∧ b.week_start = j.week_start := by
  obtain ⟨k, hk, heq⟩ := List.mem_map.mp hb
  obtain ⟨j, hj, hkj⟩ := List.mem_map.mp (List.mem_dedup.mp hk)
  have hjW := List.mem_filter.mp hj
  refine ⟨by rw [← heq], j, hjW.1, ?_, ?_, ?_, ?_⟩
  · have hany := hjW.2
    rw [Bool.not_eq_true', List.any_eq_false] at hany
    rintro ⟨d, hd, hdc, hdw⟩
    exact hany d hd (by simp [hdc, hdw])
  · rw [← heq]
    show k.1 = j.company_normalized
    rw [← hkj]
  · rw [← heq]
    show k.2.1 = j.company
    rw [← hkj]
  · rw [← heq]
    show k.2.2 = j.week_start
    rw [← hkj]

lemma filter_aggregatedWithTechs_length (D : List DRow) (cn : String) (wk : Int) :
    ((aggregatedWithTechs D).filter
        (fun a => a.company_normalized == cn && a.week_start == wk)).length =
    (((D.map (fun r => (r.company_normalized, r.company, r.week_start))).dedup).filter
        (fun k => k.1 == cn && k.2.2 == wk)).length := by
  unfold aggregatedWithTechs
  rw [length_filter_map_eq]

lemma filter_companiesWithoutTechs_length (D : List DRow) (W : List WJob)
    (cn : String) (wk : Int) :
    ((companiesWithoutTechs D W).filter
        (fun a => a.company_normalized == cn && a.week_start == wk)).length =
    ((((W.filter (fun j => !(D.any (fun d =>
          d.company_normalized == j.company_normalized &&
          d.week_start == j.week_start)))).map
        (fun j => (j.company_normalized, j.company, j.week_start))).dedup).filter
        (fun k => k.1 == cn && k.2.2 == wk)).length := by
  simp only [companiesWithoutTechs]
  rw [length_filter_map_eq]

lemma filter_stats_rows_length (Q : List AggRow) (cn : String) (wk : Int) :
    ((Q.map (fun a =>
        ({ company_normalized := a.company_normalized
           company := a.company
           week_start := a.week_start
           jobs_posted := a.jobs_posted
           tech_stack := techStackStr a } : CSRow))).filter
      (fun s => s.company_normalized == cn && s.week_start == wk)).length =
    (Q.filter (fun a => a.company_normalized == cn && a.week_start == wk)).length := by
  rw [length_filter_map_eq]

/-! ## C3 — every (company, week) pair appears exactly once -/

/-- A cleaned job for the C3 counterexample: non-null posting date,
company `acme`, week 0. -/
def cjSolo : CleanedJob :=
  ⟨1, "Acme", "acme", "Dev", "dev", none, none, some 0, "u", "s", 0, 0⟩

/-- C3 counterexample: with an EMPTY `tech_config` the asset short-circuits
(company_stats.py lines 44–49) and emits zero rows, so a
(company_normalized, week_start) pair present among the cleaned jobs with
a non-null posting date appears zero times, not exactly once as the claim
states. -/
theorem C3_company_week_counterexample :
    cjSolo.posting_date = some 0 ∧
    cjSolo.company_normalized = "acme" ∧
    weekStart 0 = 0 ∧
    ((company_stats_asset [] [cjSolo] []).2.2.filter
        (fun s => s.company_normalized == "acme" && s.week_start == 0)).length = 0 ∧
    (0 : Nat) ≠ 1 := by
  refine ⟨rfl, rfl, rfl, ?_, by decide⟩
  rfl

/-- C3 amended: when `tech_config` is NON-empty and, among the cleaned
jobs, `company_normalized` determines a single `company` spelling, every
(company_normalized, week_start) pair present among the cleaned jobs with
a non-null posting date appears exactly once in the produced
`company_stats` rows, and when zero techs are detected for that pair its
row carries an empty `tech_stack`.  (With an empty `tech_config` the
asset emits nothing — see the counterexample; with two spellings of one
normalised company the group keys differ and the pair can repeat.) -/
theorem C3_company_week_exactly_once (cfg : List TechRow)
    (cleaned : List CleanedJob) (prev : List CSRow) (cn : String) (wk : Int)
    (hcfg : cfg ≠ [])
    (hfun : ∀ a ∈ cleaned, ∀ b ∈ cleaned,
      a.company_normalized = b.company_normalized → a.company = b.company)
    (hpresent : ∃ j ∈ weeklyJobs cleaned,
      j.company_normalized = cn ∧ j.week_start = wk) :
    ((company_stats_asset cfg cleaned prev).2.2.filter
        (fun s => s.company_normalized == cn && s.week_start == wk)).length = 1 ∧
    ((¬ ∃ d ∈ detectedTechs cfg (weeklyJobs cleaned),
        d.company_normalized = cn ∧ d.week_start = wk) →
      ∀ s ∈ (company_stats_asset cfg cleaned prev).2.2,
        s.company_normalized = cn → s.week_start = wk → s.tech_stack = "") := by
  have hlen : ¬ cfg.length = 0 := fun h => hcfg (List.length_eq_zero.mp h)
  have hasset : (company_stats_asset cfg cleaned prev).2.2 =
      (companyStatsQuery cfg cleaned).map (fun a =>
        ({ company_normalized := a.company_normalized
           company := a.company
           week_start := a.week_start
           jobs_posted := a.jobs_posted
           tech_stack := techStackStr a } : CSRow)) := by
    unfold company_stats_asset
    rw [if_neg hlen]
  have hquery : companyStatsQuery cfg cleaned =
      aggregatedWithTechs (detectedTechs cfg (weeklyJobs cleaned)) ++
      companiesWithoutTechs (detectedTechs cfg (weeklyJobs cleaned))
        (weeklyJobs cleaned) := rfl
  have hfunW : ∀ j1 ∈ weeklyJobs cleaned, ∀ j2 ∈ weeklyJobs cleaned,
      j1.company_normalized = j2.company_normalized → j1.company = j2.company := by
    intro j1 h1 j2 h2 hcn
    obtain ⟨c1, hc1, e1n, e1c⟩ := mem_weeklyJobs h1
    obtain ⟨c2, hc2, e2n, e2c⟩ := mem_weeklyJobs h2
    rw [e1c, e2c]
    exact hfun c1 hc1 c2 hc2 (by rw [← e1n, ← e2n, hcn])
  have hfunD : ∀ d1 ∈ detectedTechs cfg (weeklyJobs cleaned),
      ∀ d2 ∈ detectedTechs cfg (weeklyJobs cleaned),
      d1.company_normalized = d2.company_normalized → d1.company = d2.company := by
    intro d1 h1 d2 h2 hcn
    obtain ⟨j1, hj1, e1n, e1c, -⟩ := mem_detectedTechs h1
    obtain ⟨j2, hj2, e2n, e2c, -⟩ := mem_detectedTechs h2
    rw [e1c, e2c]
    exact hfunW j1 hj1 j2 hj2 (by rw [← e1n, ← e2n, hcn])
  constructor
  · rw [hasset, filter_stats_rows_length, hquery, List.filter_append,
      List.length_append, filter_aggregatedWithTechs_length,
      filter_companiesWithoutTechs_length]
    by_cases hD : ∃ d ∈ detectedTechs cfg (weeklyJobs cleaned),
        d.company_normalized = cn ∧ d.week_start = wk
    · have hA1 : ((((detectedTechs cfg (weeklyJobs cleaned)).map
          (fun r => (r.company_normalized, r.company, r.week_start))).dedup).filter
          (fun k => k.1 == cn && k.2.2 == wk)).length = 1 := by
        apply filter_length_eq_one (List.nodup_dedup _)
        · intro a ha b hb hqa hqb
          obtain ⟨da, hda, hkda⟩ := List.mem_map.mp (List.mem_dedup.mp ha)
          obtain ⟨db, hdb, hkdb⟩ := List.mem_map.mp (List.mem_dedup.mp hb)
          subst hkda
          subst hkdb
          simp only [Bool.and_eq_true, beq_iff_eq] at hqa hqb
          have hco : da.company = db.company :=
            hfunD da hda db hdb (hqa.1.trans hqb.1.symm)
          simp [hqa.1, hqa.2, hqb.1, hqb.2, hco]
        · obtain ⟨d, hd, hdc, hdw⟩ := hD
          exact ⟨(d.company_normalized, d.company, d.week_start),
            List.mem_dedup.mpr (List.mem_map_of_mem _ hd), by simp [hdc, hdw]⟩
      have hB0 : (((((weeklyJobs cleaned).filter (fun j =>
            !((detectedTechs cfg (weeklyJobs cleaned)).any (fun d =>
              d.company_normalized == j.company_normalized &&
              d.week_start == j.week_start)))).map
          (fun j => (j.company_normalized, j.company, j.week_start))).dedup).filter
          (fun k => k.1 == cn && k.2.2 == wk)).length = 0 := by
        rw [List.length_eq_zero]
        apply List.filter_eq_nil_iff.mpr
        intro k hk hq
        obtain ⟨j, hj, hkj⟩ := List.mem_map.mp (List.mem_dedup.mp hk)
        subst hkj
        simp only [Bool.and_eq_true, beq_iff_eq] at hq
        have hjf := List.mem_filter.mp hj
        have hany := hjf.2
        rw [Bool.not_eq_true', List.any_eq_false] at hany
        obtain ⟨d, hd, hdc, hdw⟩ := hD
        exact hany d hd (by simp [hdc, hdw, hq.1, hq.2])
      rw [hA1, hB0]
    · have hA0 : ((((detectedTechs cfg (weeklyJobs cleaned)).map
          (fun r => (r.company_normalized, r.company, r.week_start))).dedup).filter
          (fun k => k.1 == cn && k.2.2 == wk)).length = 0 := by
        rw [List.length_eq_zero]
        apply List.filter_eq_nil_iff.mpr
        intro k hk hq
        obtain ⟨d, hd, hkd⟩ := List.mem_map.mp (List.mem_dedup.mp hk)
        subst hkd
        simp only [Bool.and_eq_true, beq_iff_eq] at hq
        exact hD ⟨d, hd, hq.1, hq.2⟩
      have hB1 : (((((weeklyJobs cleaned).filter (fun j =>
            !((detectedTechs cfg (weeklyJobs cleaned)).any (fun d =>
              d.company_normalized == j.company_normalized &&
              d.week_start == j.week_start)))).map
          (fun j => (j.company_normalized, j.company, j.week_start))).dedup).filter
          (fun k => k.1 == cn && k.2.2 == wk)).length = 1 := by
        apply filter_length_eq_one (List.nodup_dedup _)
        · intro a ha b hb hqa hqb
          obtain ⟨j1, hj1, hkj1⟩ := List.mem_map.mp (List.mem_dedup.mp ha)
          obtain ⟨j2, hj2, hkj2⟩ := List.mem_map.mp (List.mem_dedup.mp hb)
          subst hkj1
          subst hkj2
          simp only [Bool.and_eq_true, beq_iff_eq] at hqa hqb
          have hco : j1.company = j2.company :=
            hfunW j1 (List.mem_of_mem_filter hj1) j2 (List.mem_of_mem_filter hj2)
              (hqa.1.trans hqb.1.symm)
          simp [hqa.1, hqa.2, hqb.1, hqb.2, hco]
        · obtain ⟨j, hj, hjc, hjw⟩ := hpresent
          have hjW0 : j ∈ (weeklyJobs cleaned).filter (fun j =>
              !((detectedTechs cfg (weeklyJobs cleaned)).any (fun d =>
                d.company_normalized == j.company_normalized &&
                d.week_start == j.week_start))) := by
            refine List.mem_filter.mpr ⟨hj, ?_⟩
            rw [Bool.not_eq_true', List.any_eq_false]
            intro d hd hboth
            simp only [Bool.and_eq_true, beq_iff_eq] at hboth
            exact hD ⟨d, hd, hboth.1.trans hjc, hboth.2.trans hjw⟩
          exact ⟨(j.company_normalized, j.company, j.week_start),
            List.mem_dedup.mpr (List.mem_map_of_mem _ hjW0), by simp [hjc, hjw]⟩
      rw [hA0, hB1]
  · intro hnD s hs hscn hsws
    rw [hasset] at hs
    obtain ⟨a, haQ, hproj⟩ := List.mem_map.mp hs
    subst hproj
    rw [hquery] at haQ
    rcases List.mem_append.mp haQ with hInA | hInB
    · exfalso
      obtain ⟨d, hd, e1, -, e3⟩ := mem_aggregatedWithTechs hInA
      exact hnD ⟨d, hd, e1 ▸ hscn, e3 ▸ hsws⟩
    · obtain ⟨hempty, -⟩ := mem_companiesWithoutTechs hInB
      show techStackStr a = ""
      rw [techStackStr, hempty]
      rfl

/-- Witness for C3 at a one-tech configuration and a single cleaned job. -/
theorem C3_company_week_exactly_once_witness :
    ((company_stats_asset cfgGo [cjSolo] []).2.2.filter
        (fun s => s.company_normalized == "acme" && s.week_start == 0)).length = 1 ∧
    ((¬ ∃ d ∈ detectedTechs cfgGo (weeklyJobs [cjSolo]),
        d.company_normalized = "acme" ∧ d.week_start = 0) →
      ∀ s ∈ (company_stats_asset cfgGo [cjSolo] []).2.2,
        s.company_normalized = "acme" → s.week_start = 0 → s.tech_stack = "") :=
  C3_company_week_exactly_once cfgGo [cjSolo] [] "acme" 0 (by decide) (by decide)
    (by decide)
